import Mathlib

/-!
# Verification of the compas_fd natural force-density solver

Shallow embedding of the stiffness/load matrix assembly
(`src/compas_fd/nfd/matrices.py`), the planar stress transforms
(`src/compas_fd/nfd/math_utilities.py`) and the natural force-density
driver (`src/nfd_solver/nfd/nfd_numpy.py`).

Exact numeric code (matrix assembly, load distribution) is embedded over ℚ;
code that is inherently about real-valued norms and trigonometry
(residual computation, stress rotation) is embedded over ℝ.
The mesh geometry classes (`geometry.py`: `NaturalFace`, `NaturalEdge`) are
not part of the sources; their behaviour is abstracted as explicit
parameters (records of functions), so that every theorem quantifies over
all possible behaviours of those collaborators.
-/

/-- 3-component vectors (coordinates, loads, stress pseudo-vectors),
mirroring numpy rows of shape (3,). -/
abbrev Vec3 (α : Type) : Type := α × α × α

/-- Dot product of two 3-vectors. -/
def dot3 (a b : Vec3 ℚ) : ℚ := a.1 * b.1 + a.2.1 * b.2.1 + a.2.2 * b.2.2

/-- A 3×3 matrix given by its three rows
(models `asarray(Rotation.from_frame(face.frame))[:3, :3]`). -/
abbrev Mat3 : Type := Vec3 (Vec3 ℚ)

/-- Matrix-vector product `R.dot(v)` for a 3×3 matrix. -/
def mat3MulVec (R : Mat3) (v : Vec3 ℚ) : Vec3 ℚ :=
  (dot3 R.1 v, dot3 R.2.1 v, dot3 R.2.2 v)

/-!
## Stiffness matrix assembly (`StiffnessMatrixAssembler`, matrices.py)

The Python class collects COO triplets (`self.data`, `self.rows`,
`self.cols`) from faces first and then edges, and converts to CSR with
`coo_matrix(...).tocsr()`, which sums duplicate entries.  We model the
triplet lists and define the assembled matrix entrywise as the sum of the
values of all triplets at a given (row, col) position.
-/

/-- A processed face as consumed by the assembler: ordered vertex indices
(`face.vertices_ids`) and the derived per-edge force densities
(`face.force_densities`, 3 for triangles, 6 for quads). -/
structure NFace where
  vertices_ids : List Nat
  force_densities : List ℚ
deriving DecidableEq

/-- A processed edge as consumed by the assembler: its two vertex indices
(`edge.vertices_ids`) and its force density (`edge.force_density`). -/
structure NEdge where
  v0 : Nat
  v1 : Nat
  force_density : ℚ
deriving DecidableEq

/-- One COO triplet: row index, column index, value. -/
structure Triplet where
  row : Nat
  col : Nat
  val : ℚ
deriving DecidableEq

/-- `StiffnessMatrixAssembler._add_tri_face`: the 3×3 block of a triangular
face, as the 9 COO triplets appended by the Python method (row-major:
rows `[v0]*3 ++ [v1]*3 ++ [v2]*3`, cols `[v0,v1,v2]*3`, data
`[n1+n2, -n2, -n1, -n2, n0+n2, -n0, -n1, -n0, n0+n1]`). -/
def addTriFaceTriplets (f : NFace) : List Triplet :=
  match f.vertices_ids, f.force_densities with
  | [v0, v1, v2], [n0, n1, n2] =>
      [⟨v0, v0, n1 + n2⟩, ⟨v0, v1, -n2⟩, ⟨v0, v2, -n1⟩,
       ⟨v1, v0, -n2⟩, ⟨v1, v1, n0 + n2⟩, ⟨v1, v2, -n0⟩,
       ⟨v2, v0, -n1⟩, ⟨v2, v1, -n0⟩, ⟨v2, v2, n0 + n1⟩]
  | _, _ => []

/-- `StiffnessMatrixAssembler._add_quad_face`: the 4×4 block of a
quadrilateral face from its 6 derived force densities, as the 16 COO
triplets appended by the Python method. -/
def addQuadFaceTriplets (f : NFace) : List Triplet :=
  match f.vertices_ids, f.force_densities with
  | [v0, v1, v2, v3], [n0, n1, n2, n3, n4, n5] =>
      [⟨v0, v0, n0 + n3 + n5⟩, ⟨v0, v1, -n0⟩, ⟨v0, v2, -n5⟩, ⟨v0, v3, -n3⟩,
       ⟨v1, v0, -n0⟩, ⟨v1, v1, n0 + n1 + n4⟩, ⟨v1, v2, -n1⟩, ⟨v1, v3, -n4⟩,
       ⟨v2, v0, -n5⟩, ⟨v2, v1, -n1⟩, ⟨v2, v2, n1 + n2 + n5⟩, ⟨v2, v3, -n2⟩,
       ⟨v3, v0, -n3⟩, ⟨v3, v1, -n4⟩, ⟨v3, v2, -n2⟩, ⟨v3, v3, n2 + n3 + n4⟩]
  | _, _ => []

/-- `StiffnessMatrixAssembler._add_faces`: dispatch on the face's vertex
count (`len(face)`); a face whose arity is neither 3 nor 4 contributes no
triplets and raises no error. -/
def addFaceTriplets (f : NFace) : List Triplet :=
  if f.vertices_ids.length = 3 then addTriFaceTriplets f
  else if f.vertices_ids.length = 4 then addQuadFaceTriplets f
  else []

/-- `StiffnessMatrixAssembler._add_edges` (per edge): data `[n, n, -n, -n]`
at positions `(v0,v0), (v1,v1), (v0,v1), (v1,v0)`. -/
def addEdgeTriplets (e : NEdge) : List Triplet :=
  [⟨e.v0, e.v0, e.force_density⟩, ⟨e.v1, e.v1, e.force_density⟩,
   ⟨e.v0, e.v1, -e.force_density⟩, ⟨e.v1, e.v0, -e.force_density⟩]

/-- All COO triplets collected by `StiffnessMatrixAssembler.__init__`:
faces first (`self._add_faces(faces)`), then edges
(`self._add_edges(edges)`). -/
def assemblyTriplets (faces : List NFace) (edges : List NEdge) : List Triplet :=
  (faces.map addFaceTriplets).flatten ++ (edges.map addEdgeTriplets).flatten

/-- Entry (i, j) of the sparse matrix built from a COO triplet list:
`coo_matrix(...).tocsr()` sums the values of all duplicate positions. -/
def tripletSum (ts : List Triplet) (i j : Nat) : ℚ :=
  ((ts.filter (fun t => t.row = i ∧ t.col = j)).map Triplet.val).sum

/-- Entry (i, j) of the full assembled stiffness matrix
(`StiffnessMatrixAssembler.matrix`, i.e. `self._mat`). -/
def stiffnessEntry (faces : List NFace) (edges : List NEdge) (i j : Nat) : ℚ :=
  tripletSum (assemblyTriplets faces edges) i j

/-- Number of edges incident to vertex `i` (counting multiplicity of
parallel edges); the degree of `i` in the edge graph. -/
def degreeOf (edges : List NEdge) (i : Nat) : Nat :=
  (edges.filter (fun e => e.v0 = i ∨ e.v1 = i)).length

/-- Number of edges joining vertices `i` and `j` (in either orientation). -/
def edgeMult (edges : List NEdge) (i j : Nat) : Nat :=
  (edges.filter (fun e => (e.v0 = i ∧ e.v1 = j) ∨ (e.v0 = j ∧ e.v1 = i))).length

/-- Contribution of all faces of a list to entry (i, j). -/
def facesContrib (faces : List NFace) (i j : Nat) : ℚ :=
  tripletSum (faces.map addFaceTriplets).flatten i j

/-!
## Load matrix assembly (`LoadMatrixAssembler`, matrices.py)

Load matrices are dense (vertex count × 3) arrays; we model them as total
functions `Nat → Vec3 ℚ` from vertex index to load row (`zeros((size, 3))`
becomes the constant-zero function, so the `size` argument of the Python
constructor has no separate counterpart).  `Rotation.from_frame` is
external `compas` code; a face therefore directly carries the 3×3 rotation
matrix of its current frame.
-/

/-- A processed face as consumed by the load assembler: ordered vertex
indices, current area (`face.area`), and the rotation matrix of its
current local frame (`asarray(Rotation.from_frame(face.frame))[:3, :3]`). -/
structure LFace where
  vertices_ids : List Nat
  area : ℚ
  rotation : Mat3

/-- The per-vertex load a face distributes to each of its vertices
(`_add_face_loads` body): `face_load * (face.area / len(face))`, rotated to
the global frame by the face's rotation when the load is a local one. -/
def faceVertexLoad (isLocal : Bool) (fl : LFace × Vec3 ℚ) : Vec3 ℚ :=
  let vl : Vec3 ℚ := (fl.1.area / (fl.1.vertices_ids.length : ℚ)) • fl.2
  if isLocal then mat3MulVec fl.1.rotation vl else vl

/-- `self._mat[face.vertices_ids, :] += vertex_load`: numpy fancy-indexed
in-place addition adds the row once to every row listed in
`face.vertices_ids` (duplicate indices are applied once). -/
def applyFaceLoad (isLocal : Bool) (m : Nat → Vec3 ℚ) (fl : LFace × Vec3 ℚ) :
    Nat → Vec3 ℚ :=
  fun i => if i ∈ fl.1.vertices_ids then m i + faceVertexLoad isLocal fl else m i

/-- The loop of `_add_face_loads`: `for face, face_load in zip(self.faces,
face_loads): ...`, applied to a matrix. -/
def addFaceLoadsAux (isLocal : Bool) :
    List (LFace × Vec3 ℚ) → (Nat → Vec3 ℚ) → (Nat → Vec3 ℚ)
  | [], m => m
  | fl :: rest, m => addFaceLoadsAux isLocal rest (applyFaceLoad isLocal m fl)

/-- State of a `LoadMatrixAssembler`: its faces, the static vertex-load
baseline (`self._vertices_mat`), the optional global and local face loads
(`self._gfl`, `self._lfl`) and the current matrix (`self._mat`). -/
structure LoadMatrixAssembler where
  faces : List LFace
  vertices_mat : Nat → Vec3 ℚ
  gfl : Option (List (Vec3 ℚ))
  lfl : Option (List (Vec3 ℚ))
  mat : Nat → Vec3 ℚ

/-- `self._has_face_loads = ((self._gfl is not None) or (self._lfl is not None))`. -/
def LoadMatrixAssembler.hasFaceLoads (L : LoadMatrixAssembler) : Bool :=
  L.gfl.isSome || L.lfl.isSome

/-- `LoadMatrixAssembler.update()`: early-return when no face loads are
present; otherwise reset to a copy of the static vertex-load baseline, add
all global face loads, then add all local face loads. -/
def LoadMatrixAssembler.update (L : LoadMatrixAssembler) : LoadMatrixAssembler :=
  if L.hasFaceLoads then
    let m0 := L.vertices_mat
    let m1 := match L.gfl with
      | some ls => addFaceLoadsAux false (L.faces.zip ls) m0
      | none => m0
    let m2 := match L.lfl with
      | some ls => addFaceLoadsAux true (L.faces.zip ls) m1
      | none => m1
    { L with mat := m2 }
  else L

/-- `LoadMatrixAssembler.__init__`: build the baseline from the vertex
loads (or zeros), store the optional face loads, set `self._mat` to the
baseline and call `update()`. -/
def mkLoadAssembler (faces : List LFace) (vertex_loads : Option (List (Vec3 ℚ)))
    (gfl lfl : Option (List (Vec3 ℚ))) : LoadMatrixAssembler :=
  let vmat : Nat → Vec3 ℚ := match vertex_loads with
    | some ls => fun i => ls.getD i 0
    | none => fun _ => 0
  LoadMatrixAssembler.update ⟨faces, vmat, gfl, lfl, vmat⟩

/-- Total contribution of an optional face-load list to row `i` of the
load matrix: the sum, over the faces containing vertex `i` (paired with
their loads), of the distributed per-vertex load. -/
def optFaceContrib (isLocal : Bool) (faces : List LFace)
    (o : Option (List (Vec3 ℚ))) (i : Nat) : Vec3 ℚ :=
  match o with
  | none => 0
  | some ls =>
      (((faces.zip ls).filter (fun fl => i ∈ fl.1.vertices_ids)).map
        (faceVertexLoad isLocal)).sum

/-!
## Planar stress pseudo-vector transforms (math_utilities.py)

Stress pseudo-vectors are (σx, σy, τxy) triples; the 2×2 tensors and
rotation matrices are embedded as explicit four-field structures over ℝ.
-/

/-- A 2×2 real matrix with entries `m[row][col]`. -/
structure Mat2 where
  m00 : ℝ
  m01 : ℝ
  m10 : ℝ
  m11 : ℝ

/-- 2×2 matrix product (`A.dot(B)`). -/
def Mat2.mul (A B : Mat2) : Mat2 :=
  ⟨A.m00 * B.m00 + A.m01 * B.m10, A.m00 * B.m01 + A.m01 * B.m11,
   A.m10 * B.m00 + A.m11 * B.m10, A.m10 * B.m01 + A.m11 * B.m11⟩

/-- Matrix transpose (`A.T`). -/
def Mat2.transpose (A : Mat2) : Mat2 := ⟨A.m00, A.m10, A.m01, A.m11⟩

/-- The 2×2 identity matrix. -/
def Mat2.id : Mat2 := ⟨1, 0, 0, 1⟩

/-- `stress_vec_to_tensor`: planar stresses from pseudo-vector
(σx, σy, τxy) to tensor form `[[σx, τxy], [τxy, σy]]`. -/
def stress_vec_to_tensor (v : Vec3 ℝ) : Mat2 := ⟨v.1, v.2.2, v.2.2, v.2.1⟩

/-- `stress_tensor_to_vec`: planar stresses from tensor form back to a
pseudo-vector `[t00, t11, t01]`. -/
def stress_tensor_to_vec (t : Mat2) : Vec3 ℝ := (t.m00, t.m11, t.m01)

/-- `transform_stress`: transform a planar stress pseudo-vector by a 2×2
rotation matrix; `R·S·Rᵀ` when `invert` is set, `Rᵀ·S·R` otherwise. -/
def transform_stress (stress : Vec3 ℝ) (rotation : Mat2) (invert : Bool) : Vec3 ℝ :=
  let s := stress_vec_to_tensor stress
  let R := rotation
  let r := if invert then (R.mul s).mul R.transpose else (R.transpose.mul s).mul R
  stress_tensor_to_vec r

/-- `transform_stress_angle`: transform a planar stress pseudo-vector by an
angle in radians (the sign of the angle flips when `invert` is set), via
the 3×3 coefficient matrix `T` of the Python source applied to the
stress vector. -/
noncomputable def transform_stress_angle (stress : Vec3 ℝ) (angle : ℝ)
    (invert : Bool) : Vec3 ℝ :=
  let a := if invert then -angle else angle
  let s2a := Real.sin a ^ 2
  let c2a := Real.cos a ^ 2
  let sca := Real.sin a * Real.cos a
  (c2a * stress.1 + s2a * stress.2.1 + 2 * sca * stress.2.2,
   s2a * stress.1 + c2a * stress.2.1 - 2 * sca * stress.2.2,
   -sca * stress.1 + sca * stress.2.1 + (c2a - s2a) * stress.2.2)

/-- A concrete load assembler used to instantiate the load-update theorem. -/
def cLoadAssembler : LoadMatrixAssembler where
  faces := [⟨[0, 1, 2], 3, ((1, 0, 0), (0, 1, 0), (0, 0, 1))⟩]
  vertices_mat := fun _ => 0
  gfl := some [(1, 2, 3)]
  lfl := none
  mat := fun _ => 0

/-!
## Inner equilibrium solve (`_nfd_solve`, nfd_numpy.py)

Coordinates are total functions `Nat → Vec3 ℚ` with the vertex count `v`
(`shape(xyz)[0]`) passed separately.  `scipy.sparse.linalg.spsolve` and the
geometry-element methods (`update_xyz`, `NaturalFace.get_stresses`,
`NaturalEdge.get_forces`, from the absent `geometry.py`) are external to
the embedded code and enter as oracle functions; the theorems hold for
every behaviour of these oracles.  Element mutation (`update_xyz`) is made
explicit: the solve returns the updated face and edge lists.
-/

/-- Oracles for `_nfd_solve`: the sparse linear solver
(size, matrix, right-hand side ↦ solution), the in-place geometry update
of a face/edge at given coordinates, and the stress/force computations. -/
structure SolveEnv (S : Type) where
  linsolve : Nat → (Nat → Nat → ℚ) → (Nat → Vec3 ℚ) → (Nat → Vec3 ℚ)
  updFace : NFace → (Nat → Vec3 ℚ) → NFace
  updEdge : NEdge → (Nat → Vec3 ℚ) → NEdge
  getStresses : List NFace → (Nat → Vec3 ℚ) → Int → S
  getForces : List NEdge → (Nat → Vec3 ℚ) → List ℚ

/-- Result of `_nfd_solve`: the returned tuple `(_xyz, r, s, f)` plus the
updated element state (the Python version mutates `faces` and `edges`). -/
structure NfdOut (S : Type) where
  xyz : Nat → Vec3 ℚ
  r : Nat → Vec3 ℚ
  s : S
  f : List ℚ
  faces : List NFace
  edges : List NEdge

/-- `free = list(set(range(v)) - set(fixed))`: the free vertices, in
ascending order (a deterministic stand-in for CPython's set order; no
claim depends on the order of this list). -/
def freeList (n : Nat) (fixed : List Nat) : List Nat :=
  (List.range n).filter (fun i => i ∉ fixed)

/-- `stiff.free_matrix` = `self._mat[ix_(self.free, self.fixed)]` with both
index lists equal to `free`: entry (a, b) of the free×free submatrix. -/
def freeMat (faces : List NFace) (edges : List NEdge) (free : List Nat)
    (a b : Nat) : ℚ :=
  stiffnessEntry faces edges (free.getD a 0) (free.getD b 0)

/-- Right-hand side `p[free] - Df.dot(xyz[fixed])` of the free-vertex
system, row `a`: the refreshed load row of the a-th free vertex minus the
free×fixed submatrix (`stiff.fixed_matrix`) applied to the fixed rows of
the incoming coordinates. -/
def solveRhs (faces : List NFace) (edges : List NEdge)
    (loads : LoadMatrixAssembler) (fixed free : List Nat)
    (xyz : Nat → Vec3 ℚ) (a : Nat) : Vec3 ℚ :=
  loads.update.mat (free.getD a 0) -
    (fixed.map (fun fv =>
      stiffnessEntry faces edges (free.getD a 0) fv • xyz fv)).sum

/-- `_nfd_solve(xyz, fixed, faces, edges, loads, s_calc)`: assemble the
stiffness matrix, refresh the load matrix, solve the free-submatrix system,
write the solution into a copy of the coordinates at the free rows, update
every face and edge with the new coordinates, then compute stresses,
forces, and the reactions `r = p - D.dot(xyz)` against the *incoming*
coordinates. -/
def nfdSolve {S : Type} (env : SolveEnv S) (n : Nat) (fixed : List Nat)
    (faces : List NFace) (edges : List NEdge) (loads : LoadMatrixAssembler)
    (sCalc : Int) (xyz : Nat → Vec3 ℚ) : NfdOut S :=
  let free := freeList n fixed
  let p := loads.update.mat
  let sol := env.linsolve free.length (freeMat faces edges free)
    (solveRhs faces edges loads fixed free xyz)
  let nxyz : Nat → Vec3 ℚ := fun i =>
    if i ∈ free then sol (free.indexOf i) else xyz i
  let faces' := faces.map (fun fc => env.updFace fc nxyz)
  let edges' := edges.map (fun e => env.updEdge e nxyz)
  { xyz := nxyz
    r := fun i => p i - (∑ j ∈ Finset.range n, stiffnessEntry faces edges i j • xyz j)
    s := env.getStresses faces' nxyz sCalc
    f := env.getForces edges' nxyz
    faces := faces'
    edges := edges' }

/-- A trivial oracle record used to instantiate the solver theorems. -/
def cSolveEnv : SolveEnv Unit where
  linsolve := fun _ _ _ => fun _ => 0
  updFace := fun fc _ => fc
  updEdge := fun e _ => e
  getStresses := fun _ _ _ => ()
  getForces := fun _ _ => []

/-- A load assembler with no loads at all, used in concrete instances. -/
def cEmptyLoads : LoadMatrixAssembler where
  faces := []
  vertices_mat := fun _ => 0
  gfl := none
  lfl := none
  mat := fun _ => 0

/-!
## Outer natural force-density driver (`nfd_ur` / `nfd`, nfd_numpy.py)

The residual computations of the outer loop involve square roots, so this
part of the model is over ℝ.  The inner solve `_nfd_solve` (together with
the element state that evolves as `update_xyz` is called on faces and
edges) is abstracted as an oracle indexed by the iteration count `k`: the
`k`-th call of the run, with a stress mode and the current coordinates.
`get_stress_goals` and the final `get_stresses` read the element state
after the `k`-th solve and are oracles with the same index.  The stress
result `s` of a solve is opaque (type `S`); its `.amplitudes` attribute,
read by the loop, is a separate field.
-/

/-- Result of one inner solve as consumed by the outer driver: the tuple
`(_xyz, r, s, f)` with the `amplitudes` attribute of `s` exposed. -/
structure SolveOut (S : Type) where
  xyz : List (Vec3 ℝ)
  r : List (Vec3 ℝ)
  amplitudes : List (Vec3 ℝ)
  s : S
  f : List ℝ

/-- Oracles for `nfd_ur`: the `k`-th inner solve of the run (given a
stress mode and the current coordinates), the stress goals
`NaturalFace.get_stress_goals(faces)` as read after the `k`-th solve, and
`NaturalFace.get_stresses(faces, xyz, s_calc)` as called after the `k`-th
solve. -/
structure NfdEnv (S : Type) where
  solve : Nat → Int → List (Vec3 ℝ) → SolveOut S
  stressGoals : Nat → List (Vec3 ℝ)
  getStresses : Nat → Int → List (Vec3 ℝ) → S

/-- Row-wise Euclidean norm (`numpy.linalg.norm(..., axis=1)` of one row). -/
noncomputable def vnorm (v : Vec3 ℝ) : ℝ :=
  Real.sqrt (v.1 ^ 2 + v.2.1 ^ 2 + v.2.2 ^ 2)

/-- `average(norm(s_goals - s.amplitudes, axis=1))`: the mean over faces of
the Euclidean norm of (goal stress pseudo-vector − stress amplitudes). -/
noncomputable def sRes (goals amps : List (Vec3 ℝ)) : ℝ :=
  ((goals.zip amps).map (fun ga => vnorm (ga.1 - ga.2))).sum /
    ((goals.zip amps).length : ℝ)

/-- `max(norm(xyz - _xyz, axis=1))`: the maximum over vertices of the
Euclidean distance between old and new coordinates (as a fold of `max`
over the nonnegative per-vertex norms, with 0 for the empty mesh on which
the Python built-in `max` would raise instead). -/
noncomputable def xyzDelta (xyzOld xyzNew : List (Vec3 ℝ)) : ℝ :=
  ((xyzOld.zip xyzNew).map (fun ab => vnorm (ab.1 - ab.2))).foldr max 0

open Classical in
/-- The outer loop `for k in range(kmax): ...` of `nfd_ur`, with `fuel`
counting the remaining iterations: run the inner solve with stress mode
−1, compute both residuals, exit with `converged = True` when either
residual is below its tolerance, otherwise continue (or exit with
`converged = False` when the iteration budget is spent).  Returns
(last k, converged, xyz, r, f). -/
noncomputable def nfdLoop {S : Type} (env : NfdEnv S) (stol xtol : ℝ) :
    Nat → Nat → List (Vec3 ℝ) →
      Nat × Bool × List (Vec3 ℝ) × List (Vec3 ℝ) × List ℝ
  | 0, k, xyz => (k, false, xyz, [], [])
  | fuel + 1, k, xyz =>
    let o := env.solve k (-1) xyz
    if sRes (env.stressGoals k) o.amplitudes < stol ∨
        xyzDelta xyz o.xyz < xtol then
      (k, true, o.xyz, o.r, o.f)
    else
      match fuel with
      | 0 => (k, false, o.xyz, o.r, o.f)
      | fuel' + 1 => nfdLoop env stol xtol (fuel' + 1) (k + 1) o.xyz

/-- `nfd_ur`: with `kmax == 1` return the single inner solve (run with the
caller's `s_calc`) directly; otherwise run the outer loop and finish with
`s = NaturalFace.get_stresses(faces, xyz, s_calc)` on the final
coordinates (the convergence printout has no observable counterpart). -/
noncomputable def nfd_ur {S : Type} (env : NfdEnv S) (sCalc : Int)
    (stol xtol : ℝ) (kmax : Nat) (xyz0 : List (Vec3 ℝ)) :
    List (Vec3 ℝ) × List (Vec3 ℝ) × S × List ℝ :=
  if kmax = 1 then
    let o := env.solve 0 sCalc xyz0
    (o.xyz, o.r, o.s, o.f)
  else
    let t := nfdLoop env stol xtol kmax 0 xyz0
    (t.2.2.1, t.2.2.2.1, env.getStresses t.1 sCalc t.2.2.1, t.2.2.2.2)

/-- `nfd = partial(nfd_ur, kmax=1)`. -/
noncomputable def nfd {S : Type} (env : NfdEnv S) (sCalc : Int)
    (stol xtol : ℝ) (xyz0 : List (Vec3 ℝ)) :
    List (Vec3 ℝ) × List (Vec3 ℝ) × S × List ℝ :=
  nfd_ur env sCalc stol xtol 1 xyz0

/-- Modelled from the spec: "the plain, non-iterative force-density
method" — a single inner equilibrium solve, performed with the
caller-requested stress-output mode, whose result is returned as is. -/
noncomputable def plainFd {S : Type} (env : NfdEnv S) (sCalc : Int)
    (xyz0 : List (Vec3 ℝ)) : List (Vec3 ℝ) × List (Vec3 ℝ) × S × List ℝ :=
  let o := env.solve 0 sCalc xyz0
  (o.xyz, o.r, o.s, o.f)

/-- The coordinate iterates of a run: `iterXyz k` is the coordinate array
before the `k`-th inner solve (so `iterXyz 0` is the preprocessed input). -/
noncomputable def iterXyz {S : Type} (env : NfdEnv S) (xyz0 : List (Vec3 ℝ)) :
    Nat → List (Vec3 ℝ)
  | 0 => xyz0
  | k + 1 => (env.solve k (-1) (iterXyz env xyz0 k)).xyz

/-- The stress residual computed in iteration `k` of the loop. -/
noncomputable def sResAt {S : Type} (env : NfdEnv S) (xyz0 : List (Vec3 ℝ))
    (k : Nat) : ℝ :=
  sRes (env.stressGoals k) ((env.solve k (-1) (iterXyz env xyz0 k)).amplitudes)

/-- The displacement residual computed in iteration `k` of the loop. -/
noncomputable def xyzDeltaAt {S : Type} (env : NfdEnv S) (xyz0 : List (Vec3 ℝ))
    (k : Nat) : ℝ :=
  xyzDelta (iterXyz env xyz0 k) (iterXyz env xyz0 (k + 1))

/-- The exit condition evaluated in iteration `k`: stress residual below
`s_tol` OR displacement residual below `xyz_tol`. -/
def convergedAt {S : Type} (env : NfdEnv S) (xyz0 : List (Vec3 ℝ))
    (stol xtol : ℝ) (k : Nat) : Prop :=
  sResAt env xyz0 k < stol ∨ xyzDeltaAt env xyz0 k < xtol

/-- The reactions returned by the `k`-th inner solve of a run. -/
noncomputable def rAt {S : Type} (env : NfdEnv S) (xyz0 : List (Vec3 ℝ))
    (k : Nat) : List (Vec3 ℝ) :=
  (env.solve k (-1) (iterXyz env xyz0 k)).r

/-- The forces returned by the `k`-th inner solve of a run. -/
noncomputable def fAt {S : Type} (env : NfdEnv S) (xyz0 : List (Vec3 ℝ))
    (k : Nat) : List ℝ :=
  (env.solve k (-1) (iterXyz env xyz0 k)).f

/-- A trivial driver oracle whose solves return the current coordinates
and whose stress amplitudes always equal the goals. -/
noncomputable def cNfdEnv : NfdEnv Unit where
  solve := fun _ _ xyz => ⟨xyz, [], [(0, 0, 0)], (), []⟩
  stressGoals := fun _ => [(0, 0, 0)]
  getStresses := fun _ _ _ => ()

lemma tripletSum_append (l1 l2 : List Triplet) (i j : Nat) :
    tripletSum (l1 ++ l2) i j = tripletSum l1 i j + tripletSum l2 i j := by
  simp [tripletSum, List.filter_append]

lemma stiffnessEntry_face_cons (f : NFace) (faces : List NFace)
    (edges : List NEdge) (i j : Nat) :
    stiffnessEntry (f :: faces) edges i j =
      tripletSum (addFaceTriplets f) i j + stiffnessEntry faces edges i j := by
  simp [stiffnessEntry, assemblyTriplets, tripletSum_append, add_assoc]

lemma stiffnessEntry_edge_cons (e : NEdge) (edges : List NEdge) (i j : Nat) :
    stiffnessEntry [] (e :: edges) i j =
      tripletSum (addEdgeTriplets e) i j + stiffnessEntry [] edges i j := by
  simp [stiffnessEntry, assemblyTriplets, tripletSum_append]

lemma facesContrib_cons (f : NFace) (faces : List NFace) (i j : Nat) :
    facesContrib (f :: faces) i j =
      tripletSum (addFaceTriplets f) i j + facesContrib faces i j := by
  simp [facesContrib, tripletSum_append]

lemma facesContrib_append (l1 l2 : List NFace) (i j : Nat) :
    facesContrib (l1 ++ l2) i j = facesContrib l1 i j + facesContrib l2 i j := by
  simp [facesContrib, tripletSum_append]

lemma stiffnessEntry_eq_contrib (faces : List NFace) (edges : List NEdge) (i j : Nat) :
    stiffnessEntry faces edges i j =
      facesContrib faces i j + stiffnessEntry [] edges i j := by
  simp [stiffnessEntry, assemblyTriplets, facesContrib, tripletSum_append]

/-- C2: for a triangular face with vertices (v0, v1, v2) and derived force
densities (n0, n1, n2), the assembler adds a symmetric 3×3 block whose
diagonal at each vertex is the sum of the force densities of the two edges
adjacent to that vertex (n1+n2 at v0, n0+n2 at v1, n0+n1 at v2) and whose
off-diagonal entry (i, j) is minus the force density of the edge between i
and j; blocks of all faces and edges accumulate additively into the global
matrix. -/
theorem tri_face_block_spec (f : NFace) (faces : List NFace) (edges : List NEdge)
    (v0 v1 v2 : Nat) (n0 n1 n2 : ℚ)
    (hv : f.vertices_ids = [v0, v1, v2]) (hn : f.force_densities = [n0, n1, n2])
    (h01 : v0 ≠ v1) (h02 : v0 ≠ v2) (h12 : v1 ≠ v2) :
    (tripletSum (addFaceTriplets f) v0 v0 = n1 + n2 ∧
     tripletSum (addFaceTriplets f) v1 v1 = n0 + n2 ∧
     tripletSum (addFaceTriplets f) v2 v2 = n0 + n1) ∧
    (tripletSum (addFaceTriplets f) v0 v1 = -n2 ∧
     tripletSum (addFaceTriplets f) v1 v0 = -n2 ∧
     tripletSum (addFaceTriplets f) v0 v2 = -n1 ∧
     tripletSum (addFaceTriplets f) v2 v0 = -n1 ∧
     tripletSum (addFaceTriplets f) v1 v2 = -n0 ∧
     tripletSum (addFaceTriplets f) v2 v1 = -n0) ∧
    (∀ i j, stiffnessEntry (f :: faces) edges i j =
      tripletSum (addFaceTriplets f) i j + stiffnessEntry faces edges i j) := by
  have hlist : addFaceTriplets f =
      [⟨v0, v0, n1 + n2⟩, ⟨v0, v1, -n2⟩, ⟨v0, v2, -n1⟩,
       ⟨v1, v0, -n2⟩, ⟨v1, v1, n0 + n2⟩, ⟨v1, v2, -n0⟩,
       ⟨v2, v0, -n1⟩, ⟨v2, v1, -n0⟩, ⟨v2, v2, n0 + n1⟩] := by
    simp [addFaceTriplets, addTriFaceTriplets, hv, hn]
  refine ⟨⟨?_, ?_, ?_⟩, ⟨?_, ?_, ?_, ?_, ?_, ?_⟩, fun i j => stiffnessEntry_face_cons f faces edges i j⟩ <;>
    simp [tripletSum, hlist, List.filter, h01, h02, h12,
      Ne.symm h01, Ne.symm h02, Ne.symm h12]

theorem tri_face_block_spec_witness :
    tripletSum (addFaceTriplets ⟨[0, 1, 2], [(1 : ℚ), 2, 3]⟩) 0 0 = 2 + 3 :=
  (tri_face_block_spec ⟨[0, 1, 2], [(1 : ℚ), 2, 3]⟩ [] [] 0 1 2 1 2 3 rfl rfl
    (by decide) (by decide) (by decide)).1.1

/-- C8: a face whose vertex count is neither 3 nor 4 contributes nothing:
the assembled matrix is identical to the one assembled with that face
removed (and the assembly is a total function: no error is raised). -/
theorem skipped_face_no_contribution (f : NFace)
    (h3 : f.vertices_ids.length ≠ 3) (h4 : f.vertices_ids.length ≠ 4)
    (faces1 faces2 : List NFace) (edges : List NEdge) (i j : Nat) :
    stiffnessEntry (faces1 ++ f :: faces2) edges i j =
      stiffnessEntry (faces1 ++ faces2) edges i j := by
  have hnil : addFaceTriplets f = [] := by
    simp [addFaceTriplets, h3, h4]
  rw [stiffnessEntry_eq_contrib (faces1 ++ f :: faces2),
    stiffnessEntry_eq_contrib (faces1 ++ faces2),
    facesContrib_append, facesContrib_append, facesContrib_cons, hnil]
  simp [tripletSum]

theorem skipped_face_no_contribution_witness :
    stiffnessEntry ([] ++ NFace.mk [0, 1, 2, 3, 4] [1, 1, 1, 1, 1] :: []) [] 0 0 =
      stiffnessEntry ([] ++ []) [] 0 0 :=
  skipped_face_no_contribution ⟨[0, 1, 2, 3, 4], [1, 1, 1, 1, 1]⟩
    (by decide) (by decide) [] [] [] 0 0

lemma edge_contrib (e : NEdge) (q : ℚ) (hq : e.force_density = q)
    (hne : e.v0 ≠ e.v1) (i j : Nat) :
    tripletSum (addEdgeTriplets e) i j =
      if i = j then q * ((if e.v0 = i ∨ e.v1 = i then 1 else 0 : ℕ) : ℚ)
      else -(q * ((if (e.v0 = i ∧ e.v1 = j) ∨ (e.v0 = j ∧ e.v1 = i) then 1
                   else 0 : ℕ) : ℚ)) := by
  subst hq
  simp only [tripletSum, addEdgeTriplets, List.filter_cons, List.filter_nil]
  by_cases hij : i = j
  · subst hij
    by_cases h0 : e.v0 = i <;> by_cases h1 : e.v1 = i
    · exact absurd (h0.trans h1.symm) hne
    · simp [h0, h1]
    · simp [h0, h1]
    · simp [h0, h1]
  · by_cases h0i : e.v0 = i <;> by_cases h1j : e.v1 = j <;>
      by_cases h0j : e.v0 = j <;> by_cases h1i : e.v1 = i <;>
      simp_all

/-- C7: with no faces and a uniform force density q on every edge, the
assembled stiffness matrix is q times the graph Laplacian of the edges:
diagonal entries hold q times the vertex degree and off-diagonal entries
hold −q times the edge multiplicity. -/
theorem stiffness_is_scaled_laplacian (edges : List NEdge) (q : ℚ)
    (hq : ∀ e ∈ edges, e.force_density = q)
    (hs : ∀ e ∈ edges, e.v0 ≠ e.v1) (i j : Nat) :
    stiffnessEntry [] edges i j =
      if i = j then q * (degreeOf edges i : ℚ)
      else -(q * (edgeMult edges i j : ℚ)) := by
  induction edges with
  | nil =>
      simp [stiffnessEntry, assemblyTriplets, tripletSum, degreeOf, edgeMult]
  | cons e es ih =>
      have hqe : e.force_density = q := hq e (by simp)
      have hse : e.v0 ≠ e.v1 := hs e (by simp)
      have ihq : ∀ e' ∈ es, e'.force_density = q := fun e' h => hq e' (by simp [h])
      have ihs : ∀ e' ∈ es, e'.v0 ≠ e'.v1 := fun e' h => hs e' (by simp [h])
      rw [stiffnessEntry_edge_cons, edge_contrib e q hqe hse, ih ihq ihs]
      have hdeg : degreeOf (e :: es) i =
          (if e.v0 = i ∨ e.v1 = i then 1 else 0) + degreeOf es i := by
        simp only [degreeOf, List.filter_cons]
        by_cases h : e.v0 = i ∨ e.v1 = i <;> simp [h] <;> omega
      have hmul : edgeMult (e :: es) i j =
          (if (e.v0 = i ∧ e.v1 = j) ∨ (e.v0 = j ∧ e.v1 = i) then 1 else 0) +
            edgeMult es i j := by
        simp only [edgeMult, List.filter_cons]
        by_cases h : (e.v0 = i ∧ e.v1 = j) ∨ (e.v0 = j ∧ e.v1 = i) <;> simp [h] <;> omega
      rw [hdeg, hmul]
      split_ifs <;> push_cast <;> ring

theorem stiffness_is_scaled_laplacian_witness :
    stiffnessEntry [] [⟨0, 1, (5 : ℚ)⟩] 0 0 = 5 := by
  have h := stiffness_is_scaled_laplacian [⟨0, 1, (5 : ℚ)⟩] 5
    (by intro e he; simp at he; simp [he]) (by intro e he; simp at he; simp [he]) 0 0
  simpa [degreeOf] using h

lemma addFaceLoadsAux_apply (isLocal : Bool) (l : List (LFace × Vec3 ℚ))
    (m : Nat → Vec3 ℚ) (i : Nat) :
    addFaceLoadsAux isLocal l m i =
      m i + ((l.filter (fun fl => i ∈ fl.1.vertices_ids)).map
        (faceVertexLoad isLocal)).sum := by
  induction l generalizing m with
  | nil => simp [addFaceLoadsAux]
  | cons fl rest ih =>
      rw [addFaceLoadsAux, ih]
      by_cases h : i ∈ fl.1.vertices_ids
      · simp [applyFaceLoad, h, List.filter_cons, add_assoc]
      · simp [applyFaceLoad, h, List.filter_cons]

/-- C6: `update()` with no face loads supplied leaves the assembler (and
its matrix, already equal to the static vertex-load baseline after
construction) unchanged; with face loads present it resets the matrix to
the static baseline and adds, for each face paired with a global load, the
load times (area / vertex count) to every row of that face's vertices,
and, for each face paired with a local load, the same quantity first
rotated into the global frame by the face's current frame rotation. -/
theorem load_update_spec (L : LoadMatrixAssembler) :
    (L.gfl = none → L.lfl = none → L.update = L) ∧
    (L.hasFaceLoads = true → ∀ i, L.update.mat i =
       L.vertices_mat i + optFaceContrib false L.faces L.gfl i +
         optFaceContrib true L.faces L.lfl i) ∧
    (∀ faces vloads, (mkLoadAssembler faces vloads none none).mat =
       (mkLoadAssembler faces vloads none none).vertices_mat) := by
  refine ⟨?_, ?_, ?_⟩
  · intro hg hl
    simp [LoadMatrixAssembler.update, LoadMatrixAssembler.hasFaceLoads, hg, hl]
  · intro h i
    rcases hg : L.gfl with _ | gls <;> rcases hl : L.lfl with _ | lls
    · rw [LoadMatrixAssembler.hasFaceLoads, hg, hl] at h
      simp at h
    all_goals
      simp only [LoadMatrixAssembler.update, LoadMatrixAssembler.hasFaceLoads,
        hg, hl, Option.isSome_some, Option.isSome_none, Bool.or_true,
        Bool.true_or, Bool.or_false, if_true]
    all_goals
      simp [addFaceLoadsAux_apply, optFaceContrib, add_assoc]
  · intro faces vloads
    simp [mkLoadAssembler, LoadMatrixAssembler.update,
      LoadMatrixAssembler.hasFaceLoads]

theorem load_update_spec_witness :
    cLoadAssembler.hasFaceLoads = true ∧
    cLoadAssembler.update.mat 0 =
      cLoadAssembler.vertices_mat 0 +
        optFaceContrib false cLoadAssembler.faces cLoadAssembler.gfl 0 +
        optFaceContrib true cLoadAssembler.faces cLoadAssembler.lfl 0 :=
  ⟨rfl, (load_update_spec cLoadAssembler).2.1 rfl 0⟩

lemma mat2_mul_assoc (A B C : Mat2) : (A.mul B).mul C = A.mul (B.mul C) := by
  obtain ⟨a, b, c, d⟩ := A
  obtain ⟨e, f, g, k⟩ := B
  obtain ⟨p, q, r, t⟩ := C
  simp only [Mat2.mul, Mat2.mk.injEq]
  refine ⟨by ring, by ring, by ring, by ring⟩

lemma mat2_id_mul (A : Mat2) : Mat2.id.mul A = A := by
  obtain ⟨a, b, c, d⟩ := A
  simp only [Mat2.mul, Mat2.id, Mat2.mk.injEq]
  refine ⟨by ring, by ring, by ring, by ring⟩

lemma mat2_mul_id (A : Mat2) : A.mul Mat2.id = A := by
  obtain ⟨a, b, c, d⟩ := A
  simp only [Mat2.mul, Mat2.id, Mat2.mk.injEq]
  refine ⟨by ring, by ring, by ring, by ring⟩

lemma stress_tensor_vec_inv (s : Vec3 ℝ) :
    stress_tensor_to_vec (stress_vec_to_tensor s) = s := rfl

/-- C9: transforming a stress pseudo-vector by an angle θ and then by θ
with the invert flag set returns the original vector; likewise, for a
rotation matrix R with Rᵀ·R = I, `transform_stress` by R followed by
`transform_stress` by R with invert toggled returns the original vector
(forward transform Rᵀ·S·R, inverse transform R·S·Rᵀ; the angle form
flips the sign of the angle on invert). -/
theorem stress_transform_roundtrip :
    (∀ (s : Vec3 ℝ) (θ : ℝ),
       transform_stress_angle (transform_stress_angle s θ false) θ true = s) ∧
    (∀ (s : Vec3 ℝ) (R : Mat2), (R.transpose.mul R) = Mat2.id →
       transform_stress (transform_stress s R false) R true = s) := by
  constructor
  · intro s θ
    obtain ⟨x, y, z⟩ := s
    have hp : Real.sin θ ^ 2 + Real.cos θ ^ 2 = 1 := Real.sin_sq_add_cos_sq θ
    simp only [transform_stress_angle, Real.sin_neg, Real.cos_neg, if_true,
      Bool.false_eq_true, if_false, Prod.mk.injEq]
    refine ⟨?_, ?_, ?_⟩
    · linear_combination ((Real.sin θ ^ 2 + Real.cos θ ^ 2 + 1) * x) * hp
    · linear_combination ((Real.sin θ ^ 2 + Real.cos θ ^ 2 + 1) * y) * hp
    · linear_combination ((Real.sin θ ^ 2 + Real.cos θ ^ 2 + 1) * z) * hp
  · intro s R h
    obtain ⟨a, b, c, d⟩ := R
    simp only [Mat2.mul, Mat2.transpose, Mat2.id, Mat2.mk.injEq] at h
    obtain ⟨h1, h2, h3, h4⟩ := h
    have key : (a * a + b * b - 1) ^ 2 + (a * c + b * d) ^ 2 = 0 := by
      linear_combination (a ^ 2 + b ^ 2 - b ^ 2 - d ^ 2) * h1 +
        (a ^ 2 + b ^ 2 - 1) * h4 + (a * b + c * d) * h2
    have ha : a * a + b * b = 1 := by
      nlinarith [key, sq_nonneg (a * a + b * b - 1), sq_nonneg (a * c + b * d)]
    have hq : a * c + b * d = 0 := by
      nlinarith [key, sq_nonneg (a * a + b * b - 1), sq_nonneg (a * c + b * d)]
    have hc : c * c + d * d = 1 := by linear_combination h1 + h4 - ha
    have hRRt : Mat2.mul ⟨a, b, c, d⟩ (Mat2.transpose ⟨a, b, c, d⟩) = Mat2.id := by
      simp only [Mat2.mul, Mat2.transpose, Mat2.id, Mat2.mk.injEq]
      exact ⟨ha, hq, by linear_combination hq, hc⟩
    have hsymM : stress_vec_to_tensor (stress_tensor_to_vec
        (Mat2.mul (Mat2.mul (Mat2.transpose ⟨a, b, c, d⟩) (stress_vec_to_tensor s))
          ⟨a, b, c, d⟩)) =
        Mat2.mul (Mat2.mul (Mat2.transpose ⟨a, b, c, d⟩) (stress_vec_to_tensor s))
          ⟨a, b, c, d⟩ := by
      simp only [stress_vec_to_tensor, stress_tensor_to_vec, Mat2.mul,
        Mat2.transpose, Mat2.mk.injEq, true_and, and_true, eq_self_iff_true]
      ring
    show stress_tensor_to_vec
        (Mat2.mul (Mat2.mul ⟨a, b, c, d⟩ (stress_vec_to_tensor (stress_tensor_to_vec
          (Mat2.mul (Mat2.mul (Mat2.transpose ⟨a, b, c, d⟩) (stress_vec_to_tensor s))
            ⟨a, b, c, d⟩))))
          (Mat2.transpose ⟨a, b, c, d⟩)) = s
    rw [hsymM]
    have hcollapse : Mat2.mul (Mat2.mul ⟨a, b, c, d⟩
        (Mat2.mul (Mat2.mul (Mat2.transpose ⟨a, b, c, d⟩) (stress_vec_to_tensor s))
          ⟨a, b, c, d⟩)) (Mat2.transpose ⟨a, b, c, d⟩) = stress_vec_to_tensor s := by
      rw [← mat2_mul_assoc, ← mat2_mul_assoc, mat2_mul_assoc, hRRt,
        mat2_id_mul, mat2_mul_id]
    rw [hcollapse, stress_tensor_vec_inv]

theorem stress_transform_roundtrip_witness :
    (Mat2.transpose Mat2.id).mul Mat2.id = Mat2.id ∧
    transform_stress_angle (transform_stress_angle ((1 : ℝ), 2, 3) 0 false) 0 true =
      ((1 : ℝ), 2, 3) ∧
    transform_stress (transform_stress ((1 : ℝ), 2, 3) Mat2.id false) Mat2.id true =
      ((1 : ℝ), 2, 3) :=
  ⟨by simp [Mat2.mul, Mat2.transpose, Mat2.id],
   stress_transform_roundtrip.1 (1, 2, 3) 0,
   stress_transform_roundtrip.2 (1, 2, 3) Mat2.id
     (by simp [Mat2.mul, Mat2.transpose, Mat2.id])⟩

/-- C4: the reaction array returned by the inner solve is
`P − K_full · x_old` — refreshed loads minus the full stiffness matrix
applied to the *incoming* coordinates; in particular it does not depend on
the linear solver's output (the newly solved coordinates) at all. -/
theorem solve_reactions_spec {S : Type} (env : SolveEnv S) (n : Nat)
    (fixed : List Nat) (faces : List NFace) (edges : List NEdge)
    (loads : LoadMatrixAssembler) (sCalc : Int) (xyz : Nat → Vec3 ℚ) :
    (∀ i, (nfdSolve env n fixed faces edges loads sCalc xyz).r i =
       loads.update.mat i -
         ∑ j ∈ Finset.range n, stiffnessEntry faces edges i j • xyz j) ∧
    (∀ ls2, (nfdSolve { env with linsolve := ls2 }
        n fixed faces edges loads sCalc xyz).r =
      (nfdSolve env n fixed faces edges loads sCalc xyz).r) :=
  ⟨fun _ => rfl, fun _ => rfl⟩

/-- C5: whenever the linear-solver oracle returns an actual solution of
the assembled free-vertex system, the new free coordinates written by the
inner solve satisfy `K_free · x_free = P_free − K_free_fixed · x_fixed`;
moreover the returned stresses and forces are computed from the face and
edge lists updated (`update_xyz`) with the new coordinates. -/
theorem solve_linear_system_spec {S : Type} (env : SolveEnv S) (n : Nat)
    (fixed : List Nat) (faces : List NFace) (edges : List NEdge)
    (loads : LoadMatrixAssembler) (sCalc : Int) (xyz : Nat → Vec3 ℚ)
    (hsol : ∀ a, a < (freeList n fixed).length →
      ∑ b ∈ Finset.range (freeList n fixed).length,
        freeMat faces edges (freeList n fixed) a b •
          env.linsolve (freeList n fixed).length
            (freeMat faces edges (freeList n fixed))
            (solveRhs faces edges loads fixed (freeList n fixed) xyz) b =
        solveRhs faces edges loads fixed (freeList n fixed) xyz a) :
    (∀ a, a < (freeList n fixed).length →
      ∑ b ∈ Finset.range (freeList n fixed).length,
        freeMat faces edges (freeList n fixed) a b •
          (nfdSolve env n fixed faces edges loads sCalc xyz).xyz
            ((freeList n fixed).getD b 0) =
        solveRhs faces edges loads fixed (freeList n fixed) xyz a) ∧
    (nfdSolve env n fixed faces edges loads sCalc xyz).faces =
      faces.map (fun fc => env.updFace fc
        (nfdSolve env n fixed faces edges loads sCalc xyz).xyz) ∧
    (nfdSolve env n fixed faces edges loads sCalc xyz).edges =
      edges.map (fun e => env.updEdge e
        (nfdSolve env n fixed faces edges loads sCalc xyz).xyz) ∧
    (nfdSolve env n fixed faces edges loads sCalc xyz).s =
      env.getStresses (nfdSolve env n fixed faces edges loads sCalc xyz).faces
        (nfdSolve env n fixed faces edges loads sCalc xyz).xyz sCalc ∧
    (nfdSolve env n fixed faces edges loads sCalc xyz).f =
      env.getForces (nfdSolve env n fixed faces edges loads sCalc xyz).edges
        (nfdSolve env n fixed faces edges loads sCalc xyz).xyz := by
  have hnodup : (freeList n fixed).Nodup :=
    (List.nodup_range n).filter _
  have hxyz : ∀ b, b < (freeList n fixed).length →
      (nfdSolve env n fixed faces edges loads sCalc xyz).xyz
          ((freeList n fixed).getD b 0) =
        env.linsolve (freeList n fixed).length
          (freeMat faces edges (freeList n fixed))
          (solveRhs faces edges loads fixed (freeList n fixed) xyz) b := by
    intro b hb
    have hgetd : (freeList n fixed).getD b 0 = (freeList n fixed)[b] :=
      List.getD_eq_getElem _ 0 hb
    have hmem : (freeList n fixed).getD b 0 ∈ freeList n fixed := by
      rw [hgetd]; exact List.getElem_mem hb
    show (if (freeList n fixed).getD b 0 ∈ freeList n fixed then _ else _) = _
    rw [if_pos hmem]
    rw [hgetd, List.indexOf_getElem hnodup b hb]
  refine ⟨?_, rfl, rfl, rfl, rfl⟩
  intro a ha
  calc ∑ b ∈ Finset.range (freeList n fixed).length,
        freeMat faces edges (freeList n fixed) a b •
          (nfdSolve env n fixed faces edges loads sCalc xyz).xyz
            ((freeList n fixed).getD b 0)
      = ∑ b ∈ Finset.range (freeList n fixed).length,
          freeMat faces edges (freeList n fixed) a b •
            env.linsolve (freeList n fixed).length
              (freeMat faces edges (freeList n fixed))
              (solveRhs faces edges loads fixed (freeList n fixed) xyz) b :=
        Finset.sum_congr rfl (fun b hb => by
          rw [hxyz b (Finset.mem_range.mp hb)])
    _ = solveRhs faces edges loads fixed (freeList n fixed) xyz a := hsol a ha

theorem solve_linear_system_spec_witness :
    (0 < (freeList 1 []).length) ∧
    ∑ b ∈ Finset.range (freeList 1 []).length,
      freeMat [] [] (freeList 1 []) 0 b •
        (nfdSolve cSolveEnv 1 [] [] [] cEmptyLoads 1 (fun _ => 0)).xyz
          ((freeList 1 []).getD b 0) =
      solveRhs [] [] cEmptyLoads [] (freeList 1 []) (fun _ => 0) 0 := by
  have hsol : ∀ a, a < (freeList 1 []).length →
      ∑ b ∈ Finset.range (freeList 1 []).length,
        freeMat [] [] (freeList 1 []) a b •
          cSolveEnv.linsolve (freeList 1 []).length
            (freeMat [] [] (freeList 1 []))
            (solveRhs [] [] cEmptyLoads [] (freeList 1 []) (fun _ => 0)) b =
        solveRhs [] [] cEmptyLoads [] (freeList 1 []) (fun _ => 0) a := by
    intro a ha
    simp [freeList, freeMat, solveRhs, stiffnessEntry, assemblyTriplets,
      tripletSum, cEmptyLoads, cSolveEnv, LoadMatrixAssembler.update,
      LoadMatrixAssembler.hasFaceLoads, Prod.ext_iff]
  exact ⟨by decide, (solve_linear_system_spec cSolveEnv 1 [] [] [] cEmptyLoads 1
    (fun _ => 0) hsol).1 0 (by decide)⟩

/-- C10: the inner solve does not touch the incoming coordinates (the
model is a pure function of them) and reassigns only free rows: every row
outside the free list — in particular every fixed row — is returned
exactly equal to the corresponding incoming row. -/
theorem solve_fixed_rows_unchanged {S : Type} (env : SolveEnv S) (n : Nat)
    (fixed : List Nat) (faces : List NFace) (edges : List NEdge)
    (loads : LoadMatrixAssembler) (sCalc : Int) (xyz : Nat → Vec3 ℚ) :
    (∀ i, i ∉ freeList n fixed →
       (nfdSolve env n fixed faces edges loads sCalc xyz).xyz i = xyz i) ∧
    (∀ i, i ∈ fixed →
       (nfdSolve env n fixed faces edges loads sCalc xyz).xyz i = xyz i) := by
  have hfree : ∀ i, i ∉ freeList n fixed →
      (nfdSolve env n fixed faces edges loads sCalc xyz).xyz i = xyz i := by
    intro i hi
    show (if i ∈ freeList n fixed then _ else _) = _
    rw [if_neg hi]
  refine ⟨hfree, fun i hi => hfree i ?_⟩
  intro hmem
  have hp := List.of_mem_filter hmem
  simp only [decide_not, Bool.not_eq_true', decide_eq_false_iff_not] at hp
  exact hp hi

theorem solve_fixed_rows_unchanged_witness :
    (0 ∈ ([0] : List Nat)) ∧
    (nfdSolve cSolveEnv 1 [0] [] [] cEmptyLoads 1 (fun _ => 0)).xyz 0 =
      (fun _ => (0 : Vec3 ℚ)) 0 :=
  ⟨by decide,
   (solve_fixed_rows_unchanged cSolveEnv 1 [0] [] [] cEmptyLoads 1
     (fun _ => 0)).2 0 (by decide)⟩

open Classical in
lemma nfdLoop_succ {S : Type} (env : NfdEnv S) (stol xtol : ℝ) (fuel k : Nat)
    (xyz : List (Vec3 ℝ)) :
    nfdLoop env stol xtol (fuel + 1) k xyz =
      (let o := env.solve k (-1) xyz
       if sRes (env.stressGoals k) o.amplitudes < stol ∨
           xyzDelta xyz o.xyz < xtol then
         (k, true, o.xyz, o.r, o.f)
       else
         match fuel with
         | 0 => (k, false, o.xyz, o.r, o.f)
         | fuel' + 1 => nfdLoop env stol xtol (fuel' + 1) (k + 1) o.xyz) := by
  rw [nfdLoop.eq_def]

lemma nfdLoop_exhaust {S : Type} (env : NfdEnv S) (stol xtol : ℝ)
    (xyz0 : List (Vec3 ℝ)) :
    ∀ fuel k, 0 < fuel →
      (∀ j, k ≤ j → j < k + fuel → ¬ convergedAt env xyz0 stol xtol j) →
      nfdLoop env stol xtol fuel k (iterXyz env xyz0 k) =
        (k + fuel - 1, false, iterXyz env xyz0 (k + fuel),
          rAt env xyz0 (k + fuel - 1), fAt env xyz0 (k + fuel - 1)) := by
  intro fuel
  induction fuel with
  | zero => intro k h0; omega
  | succ fuel ih =>
    intro k _ hnc
    have hck : ¬ convergedAt env xyz0 stol xtol k := hnc k le_rfl (by omega)
    have hck' : ¬ (sRes (env.stressGoals k)
        ((env.solve k (-1) (iterXyz env xyz0 k)).amplitudes) < stol ∨
        xyzDelta (iterXyz env xyz0 k)
          ((env.solve k (-1) (iterXyz env xyz0 k)).xyz) < xtol) := hck
    rw [nfdLoop_succ, if_neg hck']
    cases fuel with
    | zero =>
      show (k, false, _, _, _) = _
      simp only [iterXyz, rAt, fAt]
      norm_num
    | succ fuel' =>
      have harg : (env.solve k (-1) (iterXyz env xyz0 k)).xyz =
          iterXyz env xyz0 (k + 1) := rfl
      show nfdLoop env stol xtol (fuel' + 1) (k + 1)
          ((env.solve k (-1) (iterXyz env xyz0 k)).xyz) = _
      rw [harg, ih (k + 1) (Nat.succ_pos _)
        (fun j hj1 hj2 => hnc j (by omega) (by omega))]
      have hn : k + 1 + (fuel' + 1) = k + (fuel' + 1 + 1) := by omega
      rw [hn]

lemma nfdLoop_converge {S : Type} (env : NfdEnv S) (stol xtol : ℝ)
    (xyz0 : List (Vec3 ℝ)) :
    ∀ fuel k k0, k ≤ k0 → k0 < k + fuel →
      convergedAt env xyz0 stol xtol k0 →
      (∀ j, k ≤ j → j < k0 → ¬ convergedAt env xyz0 stol xtol j) →
      nfdLoop env stol xtol fuel k (iterXyz env xyz0 k) =
        (k0, true, iterXyz env xyz0 (k0 + 1), rAt env xyz0 k0, fAt env xyz0 k0) := by
  intro fuel
  induction fuel with
  | zero => intro k k0 hk1 hk2 _ _; omega
  | succ fuel ih =>
    intro k k0 hk1 hk2 hconv hbefore
    rcases Nat.eq_or_lt_of_le hk1 with heq | hlt
    · subst heq
      have hc' : sRes (env.stressGoals k)
          ((env.solve k (-1) (iterXyz env xyz0 k)).amplitudes) < stol ∨
          xyzDelta (iterXyz env xyz0 k)
            ((env.solve k (-1) (iterXyz env xyz0 k)).xyz) < xtol := hconv
      rw [nfdLoop_succ, if_pos hc']
      rfl
    · have hck : ¬ convergedAt env xyz0 stol xtol k := hbefore k le_rfl hlt
      have hck' : ¬ (sRes (env.stressGoals k)
          ((env.solve k (-1) (iterXyz env xyz0 k)).amplitudes) < stol ∨
          xyzDelta (iterXyz env xyz0 k)
            ((env.solve k (-1) (iterXyz env xyz0 k)).xyz) < xtol) := hck
      rw [nfdLoop_succ, if_neg hck']
      cases fuel with
      | zero => omega
      | succ fuel' =>
        have harg : (env.solve k (-1) (iterXyz env xyz0 k)).xyz =
            iterXyz env xyz0 (k + 1) := rfl
        show nfdLoop env stol xtol (fuel' + 1) (k + 1)
            ((env.solve k (-1) (iterXyz env xyz0 k)).xyz) = _
        rw [harg]
        exact ih (k + 1) k0 hlt (by omega) hconv
          (fun j hj1 hj2 => hbefore j (by omega) hj2)

/-- C1: for a run of `nfd_ur` with `kmax > 1`, in every iteration `k` the
stress residual is the mean over faces of the Euclidean norm of (goal
stress pseudo-vector − the just-computed stress amplitudes) and the
displacement residual is the maximum over vertices of the Euclidean
distance between this iteration's and the previous iteration's
coordinates (both via `convergedAt`, defined from `sRes`/`xyzDelta`); the
loop exits converged at the first `k` whose stress residual is below
`s_tol` OR whose displacement residual is below `xyz_tol`, and otherwise
runs exactly `kmax` iterations and exits exhausted (last index
`kmax − 1`, converged flag false); `nfd_ur` postprocesses the loop result
with a final stress evaluation at the caller's mode. -/
theorem nfd_ur_outer_loop_spec {S : Type} (env : NfdEnv S) (sCalc : Int)
    (stol xtol : ℝ) (xyz0 : List (Vec3 ℝ)) (kmax : Nat) (hk : 1 < kmax) :
    (∀ k0, k0 < kmax → convergedAt env xyz0 stol xtol k0 →
      (∀ j, j < k0 → ¬ convergedAt env xyz0 stol xtol j) →
      nfdLoop env stol xtol kmax 0 xyz0 =
        (k0, true, iterXyz env xyz0 (k0 + 1), rAt env xyz0 k0, fAt env xyz0 k0)) ∧
    ((∀ j, j < kmax → ¬ convergedAt env xyz0 stol xtol j) →
      nfdLoop env stol xtol kmax 0 xyz0 =
        (kmax - 1, false, iterXyz env xyz0 kmax,
          rAt env xyz0 (kmax - 1), fAt env xyz0 (kmax - 1))) ∧
    (nfd_ur env sCalc stol xtol kmax xyz0 =
      ((nfdLoop env stol xtol kmax 0 xyz0).2.2.1,
       (nfdLoop env stol xtol kmax 0 xyz0).2.2.2.1,
       env.getStresses (nfdLoop env stol xtol kmax 0 xyz0).1 sCalc
         (nfdLoop env stol xtol kmax 0 xyz0).2.2.1,
       (nfdLoop env stol xtol kmax 0 xyz0).2.2.2.2)) := by
  refine ⟨?_, ?_, ?_⟩
  · intro k0 hk0 hconv hbefore
    exact nfdLoop_converge env stol xtol xyz0 kmax 0 k0 (Nat.zero_le _)
      (by omega) hconv (fun j _ hj => hbefore j hj)
  · intro hnone
    have h := nfdLoop_exhaust env stol xtol xyz0 kmax 0 (by omega)
      (fun j _ hj => hnone j (by omega))
    simpa using h
  · rw [nfd_ur, if_neg (by omega : ¬ kmax = 1)]

theorem nfd_ur_outer_loop_spec_witness :
    (1 < 2) ∧ convergedAt cNfdEnv ([] : List (Vec3 ℝ)) 1 1 0 ∧
    nfdLoop cNfdEnv 1 1 2 0 [] =
      (0, true, iterXyz cNfdEnv [] 1, rAt cNfdEnv [] 0, fAt cNfdEnv [] 0) := by
  have hconv : convergedAt cNfdEnv ([] : List (Vec3 ℝ)) 1 1 0 := by
    refine Or.inl ?_
    show sResAt cNfdEnv [] 0 < 1
    simp [sResAt, sRes, iterXyz, cNfdEnv, vnorm]
  exact ⟨by norm_num, hconv,
    (nfd_ur_outer_loop_spec cNfdEnv 1 1 1 [] 2 (by norm_num)).1 0 (by norm_num)
      hconv (fun j hj => absurd hj (by omega))⟩

/-- C3: `nfd` is exactly `nfd_ur` with `kmax` fixed to 1, and `nfd_ur`
with `kmax == 1` bypasses the outer loop and returns the single inner
solve performed with the caller-requested stress mode `s_calc` — i.e. the
plain, non-iterative force-density method: identical coordinates,
reactions, stresses and forces. -/
theorem nfd_kmax_one_bypass {S : Type} (env : NfdEnv S) (sCalc : Int)
    (stol xtol : ℝ) (xyz0 : List (Vec3 ℝ)) :
    nfd env sCalc stol xtol xyz0 = nfd_ur env sCalc stol xtol 1 xyz0 ∧
    nfd_ur env sCalc stol xtol 1 xyz0 = plainFd env sCalc xyz0 := by
  refine ⟨rfl, ?_⟩
  rw [nfd_ur, if_pos rfl]
  rfl
